import Mathlib

/-!
Verification of the image normalization pipeline and the five-slot
admission state machine of the img-app repository
(src/js/image-processor.js and src/js/app.js).

Embedding conventions:
* JPEG encode qualities are JavaScript doubles that, after the source's
  explicit rounding to 2 decimal places, always denote exact hundredths;
  we therefore model a quality as a natural number of hundredths
  (0.92 becomes 92, 0.05 becomes 5, 0.30 becomes 30).
* The platform JPEG encoder (canvas.toBlob) is abstracted as a function
  from quality (in hundredths) to the byte size of the blob it produces;
  blobs themselves are identified with their byte sizes, which is the
  only attribute the compression loop inspects.
* Real-number arithmetic of the resize planner is modelled exactly over
  the rationals, with JavaScript Math.round (round half toward plus
  infinity) made explicit.
-/

namespace ImgApp

/-! ## Compressor (src/js/image-processor.js, `_compress`) -/

/-- TARGET_SIZE: 1 * 1024 * 1024 bytes (1MB). -/
def TARGET_SIZE : ℕ := 1 * 1024 * 1024

/-- INITIAL_QUALITY: 0.92, in hundredths. -/
def INITIAL_QUALITY : ℕ := 92

/-- QUALITY_STEP: 0.05, in hundredths. -/
def QUALITY_STEP : ℕ := 5

/-- MIN_QUALITY: 0.30, in hundredths. -/
def MIN_QUALITY : ℕ := 30

/-- The warning message produced when even the minimum quality misses
the byte budget (src/js/image-processor.js line 115). -/
def degradedMessage : String :=
  "Image could not be compressed below 1MB at minimum quality. It has been saved at the smallest achievable size."

/-- Result of `_compress`: the blob (identified with its byte size), the
quality used (hundredths) and the warning, mirroring the
`{ blob, width, height, quality, warning }` object (dimensions are passed
through unchanged by `_compress` and are omitted here). -/
structure CompressResult where
  size : ℕ
  quality : ℕ
  warning : Option String
deriving Repr, DecidableEq

/-- The `while (quality >= this.MIN_QUALITY)` loop of `_compress`,
together with the final attempt at minimum quality after the loop.
`enc q` is the byte size of the blob the platform encoder produces at
quality `q` (hundredths).  In the source, `quality -= this.QUALITY_STEP`
followed by `Math.round(quality * 100) / 100` decrements the quality by
exactly five hundredths. -/
def compressLoop (enc : ℕ → ℕ) (q : ℕ) : CompressResult :=
  if h : MIN_QUALITY ≤ q then
    if enc q ≤ TARGET_SIZE then
      { size := enc q, quality := q, warning := none }
    else
      compressLoop enc (q - QUALITY_STEP)
  else
    -- Final attempt at minimum quality
    let s := enc MIN_QUALITY
    { size := s, quality := MIN_QUALITY,
      warning := if TARGET_SIZE < s then some degradedMessage else none }
termination_by q
decreasing_by
  simp only [MIN_QUALITY, QUALITY_STEP] at h ⊢
  omega

/-- `_compress`: start the loop at INITIAL_QUALITY. -/
def compress (enc : ℕ → ℕ) : CompressResult :=
  compressLoop enc INITIAL_QUALITY

/-- The qualities attempted inside the `while` loop of `_compress`
(the final post-loop attempt at `MIN_QUALITY` is not part of the loop),
in the order they are attempted. -/
def attemptedLoop (enc : ℕ → ℕ) (q : ℕ) : List ℕ :=
  if h : MIN_QUALITY ≤ q then
    if enc q ≤ TARGET_SIZE then [q]
    else q :: attemptedLoop enc (q - QUALITY_STEP)
  else []
termination_by q
decreasing_by
  simp only [MIN_QUALITY, QUALITY_STEP] at h ⊢
  omega

/-- All qualities attempted inside the encode loop of a Compressor run. -/
def attempted (enc : ℕ → ℕ) : List ℕ :=
  attemptedLoop enc INITIAL_QUALITY

/-! ## Resize Planner (src/js/image-processor.js, `_calcDimensions`) -/

/-- MAX_EDGE: 2000 pixels. -/
def MAX_EDGE : ℤ := 2000

/-- A pair of planned output dimensions. -/
structure Dims where
  width : ℤ
  height : ℤ
deriving Repr, DecidableEq

/-- JavaScript `Math.round`: round half toward positive infinity. -/
def jsRound (x : ℚ) : ℤ := Int.floor (x + 1 / 2)

/-- `_calcDimensions(origW, origH)`: cap the longest edge at MAX_EDGE.
The double arithmetic `scale = MAX_EDGE / longest; Math.round(orig * scale)`
is modelled exactly over ℚ. -/
def calcDimensions (origW origH : ℤ) : Dims :=
  let longest := max origW origH
  if longest ≤ MAX_EDGE then
    { width := origW, height := origH }
  else
    let scale : ℚ := (MAX_EDGE : ℚ) / (longest : ℚ)
    { width := jsRound ((origW : ℚ) * scale),
      height := jsRound ((origH : ℚ) * scale) }

/-! ## Helper lemmas about the compression loop -/

/-- Whenever the loop returns, either the returned blob met the budget or
the quality used is the floor. -/
theorem compressLoop_budget_or_floor (enc : ℕ → ℕ) (q : ℕ) :
    (compressLoop enc q).size ≤ TARGET_SIZE ∨
      (compressLoop enc q).quality = MIN_QUALITY := by
  induction q using Nat.strong_induction_on with
  | _ q ih =>
    rw [compressLoop]
    split
    · split
      · next henc => exact Or.inl henc
      · next hq _ =>
          exact ih (q - QUALITY_STEP)
            (by simp only [MIN_QUALITY, QUALITY_STEP] at hq ⊢; omega)
    · exact Or.inr rfl

/-- If every encode on the quality ladder exceeds the budget, the loop
falls through to the final attempt at minimum quality. -/
theorem compressLoop_exhaust (enc : ℕ → ℕ)
    (hover : ∀ k, k ≤ 12 → TARGET_SIZE < enc (92 - 5 * k)) :
    ∀ q, q ≤ 92 → q % 5 = 2 →
      compressLoop enc q =
        { size := enc MIN_QUALITY, quality := MIN_QUALITY,
          warning :=
            if TARGET_SIZE < enc MIN_QUALITY then some degradedMessage
            else none } := by
  intro q
  induction q using Nat.strong_induction_on with
  | _ q ih =>
    intro hle hmod
    rw [compressLoop]
    split
    · next hq =>
        simp only [MIN_QUALITY] at hq
        have hform : 92 - 5 * ((92 - q) / 5) = q := by omega
        have hk : (92 - q) / 5 ≤ 12 := by omega
        have hbig : TARGET_SIZE < enc q := by
          have := hover ((92 - q) / 5) hk
          rwa [hform] at this
        rw [if_neg (by omega)]
        exact ih (q - QUALITY_STEP)
          (by simp only [QUALITY_STEP]; omega)
          (by simp only [QUALITY_STEP]; omega)
          (by simp only [QUALITY_STEP]; omega)
    · rfl

/-- The quality returned by the loop is either the floor or a value on
the descending ladder starting at `q` (same residue mod 5, between the
floor and `q`). -/
theorem compressLoop_quality_shape (enc : ℕ → ℕ) (q : ℕ) :
    (compressLoop enc q).quality = MIN_QUALITY ∨
      ((compressLoop enc q).quality ≤ q ∧
        MIN_QUALITY ≤ (compressLoop enc q).quality ∧
        (compressLoop enc q).quality % 5 = q % 5) := by
  have hM : MIN_QUALITY = 30 := rfl
  have hS : QUALITY_STEP = 5 := rfl
  induction q using Nat.strong_induction_on with
  | _ q ih =>
    rw [compressLoop]
    split
    · next hq =>
        split
        · exact Or.inr ⟨le_refl q, hq, rfl⟩
        · rcases ih (q - QUALITY_STEP) (by omega) with h | ⟨h1, h2, h3⟩
          · exact Or.inl h
          · exact Or.inr ⟨by omega, h2, by omega⟩
    · exact Or.inl rfl

/-- The trace of qualities attempted inside the loop, started at a
quality at or above the floor, begins at that quality and steps down by
exactly 5 hundredths at each attempt. -/
theorem attemptedLoop_head_chain (enc : ℕ → ℕ) (q : ℕ)
    (hq : MIN_QUALITY ≤ q) :
    (attemptedLoop enc q).head? = some q ∧
      List.Chain' (fun a b => a = b + QUALITY_STEP) (attemptedLoop enc q) := by
  induction q using Nat.strong_induction_on with
  | _ q ih =>
    rw [attemptedLoop, dif_pos hq]
    split
    · exact ⟨rfl, List.chain'_singleton q⟩
    · by_cases hnext : MIN_QUALITY ≤ q - QUALITY_STEP
      · have hrec := ih (q - QUALITY_STEP)
          (by simp only [MIN_QUALITY, QUALITY_STEP] at hq ⊢; omega) hnext
        refine ⟨rfl, List.chain'_cons'.mpr ⟨?_, hrec.2⟩⟩
        intro b hb
        rw [hrec.1] at hb
        simp only [Option.mem_def, Option.some_inj] at hb
        simp only [MIN_QUALITY] at hq
        simp only [QUALITY_STEP] at hb ⊢
        omega
      · have hnil : attemptedLoop enc (q - QUALITY_STEP) = [] := by
          rw [attemptedLoop, dif_neg hnext]
        rw [hnil]
        exact ⟨rfl, List.chain'_singleton q⟩

/-- An encoder whose output exceeds the byte budget at every quality. -/
def overBudgetEnc : ℕ → ℕ := fun _ => TARGET_SIZE + 1

/-! ## Claim theorems for the Compressor -/

/-- C1: for every renderable bitmap (modelled by its encoder size
function), the Compressor's result satisfies: either the returned blob's
byte size is at most 1,048,576 or the returned quality equals 0.30; and
when the loop exhausts the ladder (every ladder encode exceeds the
budget), one final encode is performed at exactly 0.30 and returned
regardless of size, with the warning flag set if and only if that final
blob's size exceeds the budget. -/
theorem compress_budget_or_floor (enc : ℕ → ℕ) :
    ((compress enc).size ≤ TARGET_SIZE ∨
      (compress enc).quality = MIN_QUALITY) ∧
    ((∀ k, k ≤ 12 → TARGET_SIZE < enc (92 - 5 * k)) →
      (compress enc).quality = MIN_QUALITY ∧
      (compress enc).size = enc MIN_QUALITY ∧
      ((compress enc).warning = some degradedMessage ↔
        TARGET_SIZE < enc MIN_QUALITY)) := by
  constructor
  · exact compressLoop_budget_or_floor enc INITIAL_QUALITY
  · intro hover
    have h := compressLoop_exhaust enc hover 92 (by omega) (by omega)
    have hcompress : compress enc = compressLoop enc 92 := rfl
    rw [hcompress, h]
    refine ⟨rfl, rfl, ?_⟩
    by_cases hb : TARGET_SIZE < enc MIN_QUALITY
    · simp [hb]
    · simp [hb]

/-- Witness for C1 at a concrete encoder that never meets the budget. -/
theorem compress_budget_or_floor_witness :
    (compress overBudgetEnc).quality = MIN_QUALITY ∧
    (compress overBudgetEnc).size = overBudgetEnc MIN_QUALITY ∧
    ((compress overBudgetEnc).warning = some degradedMessage ↔
      TARGET_SIZE < overBudgetEnc MIN_QUALITY) :=
  (compress_budget_or_floor overBudgetEnc).2
    (fun _ _ => Nat.lt_succ_self TARGET_SIZE)

/-- The 17-value quality set described by the claim: an arithmetic
sequence of 17 values stepping down by 0.05 from 0.92 (hundredths). -/
def claimedQualityLadder : List ℕ :=
  (List.range 17).map (fun k => 92 - 5 * k)

/-- The quality values actually reachable in the source: the 13 in-loop
ladder values 0.92 down to 0.32, plus the post-loop floor 0.30. -/
def actualQualityLadder : List ℕ :=
  [92, 87, 82, 77, 72, 67, 62, 57, 52, 47, 42, 37, 32, 30]

/-- C4 counterexample: with an encoder that always exceeds the budget,
the Compressor returns quality 0.30, which is not one of the 17 values
of an arithmetic sequence stepping by 0.05 down from 0.92 (such a
sequence never contains 0.30, and the reachable set has 14 values, not
17). -/
theorem compress_quality_seventeen_cex :
    (compress overBudgetEnc).quality ∉ claimedQualityLadder ∧
      actualQualityLadder.length ≠ 17 := by
  have h := compressLoop_exhaust overBudgetEnc
    (fun _ _ => Nat.lt_succ_self TARGET_SIZE) 92 (by omega) (by omega)
  have hcompress : compress overBudgetEnc = compressLoop overBudgetEnc 92 := rfl
  rw [hcompress, h]
  constructor
  · decide
  · decide

/-- C4 (amended): the quality recorded in the returned result is always
one of the 14 values {0.92, 0.87, ..., 0.37, 0.32, 0.30}: the 13-value
in-loop ladder stepping by 0.05 from 0.92 down to 0.32, plus the floor
0.30 used by the final post-loop encode. -/
theorem compress_quality_fourteen_values (enc : ℕ → ℕ) :
    (compress enc).quality ∈ actualQualityLadder := by
  have hball : ∀ v, v < 93 → 30 ≤ v → v % 5 = 2 →
      v ∈ actualQualityLadder := by decide
  rcases compressLoop_quality_shape enc INITIAL_QUALITY with h | ⟨h1, h2, h3⟩
  · have : (compress enc).quality = MIN_QUALITY := h
    rw [this]
    decide
  · have q1 : (compress enc).quality ≤ 92 := h1
    have q2 : 30 ≤ (compress enc).quality := h2
    have q3 : (compress enc).quality % 5 = 2 := h3
    exact hball _ (by omega) q2 q3

/-- Witness for the amended C4 at a concrete encoder. -/
theorem compress_quality_fourteen_values_witness :
    (compress overBudgetEnc).quality ∈ actualQualityLadder :=
  compress_quality_fourteen_values overBudgetEnc

/-- C8: the sequence of qualities attempted inside the encode loop is
strictly decreasing by exactly 0.05 per step, starting at 0.92, with no
skipped or repeated values. -/
theorem attempted_monotone_ladder (enc : ℕ → ℕ) :
    (attempted enc).head? = some INITIAL_QUALITY ∧
      List.Chain' (fun a b => a = b + QUALITY_STEP) (attempted enc) :=
  attemptedLoop_head_chain enc INITIAL_QUALITY (by decide)

/-- Witness for C8 at a concrete encoder. -/
theorem attempted_monotone_ladder_witness :
    (attempted overBudgetEnc).head? = some INITIAL_QUALITY ∧
      List.Chain' (fun a b => a = b + QUALITY_STEP)
        (attempted overBudgetEnc) :=
  attempted_monotone_ladder overBudgetEnc

/-! ## Claim theorems for the Resize Planner -/

/-- C2: for positive source dimensions, if the longest edge is at most
2000 the planner returns the input unchanged; otherwise it scales both
dimensions by 2000 / max(w, h), rounding each to the nearest integer
independently; in particular 3000x2000 plans to exactly 2000x1333. -/
theorem calcDimensions_plan (w h : ℤ) (hw : 0 < w) (hh : 0 < h) :
    (max w h ≤ MAX_EDGE → calcDimensions w h = ⟨w, h⟩) ∧
    (MAX_EDGE < max w h →
      calcDimensions w h =
        ⟨jsRound ((w : ℚ) * ((MAX_EDGE : ℚ) / ((max w h : ℤ) : ℚ))),
         jsRound ((h : ℚ) * ((MAX_EDGE : ℚ) / ((max w h : ℤ) : ℚ)))⟩) ∧
    calcDimensions 3000 2000 = ⟨2000, 1333⟩ := by
  refine ⟨fun hle => ?_, fun hgt => ?_, ?_⟩
  · simp [calcDimensions, hle]
  · simp [calcDimensions, not_le.mpr hgt]
  · norm_num [calcDimensions, jsRound, MAX_EDGE]

/-- Witness for C2 at the concrete 3000x2000 source. -/
theorem calcDimensions_plan_witness :
    calcDimensions 3000 2000 = ⟨2000, 1333⟩ :=
  (calcDimensions_plan 3000 2000 (by norm_num) (by norm_num)).2.2

/-- C5 counterexample: at source dimensions 0x0 (both non-positive) the
translated `_calcDimensions` returns the dimensions {0, 0}; the source
contains no InvalidDimensions failure path at all, contradicting the
claim that the planner fails rather than returning dimensions. -/
theorem calcDimensions_no_invalid_check_cex :
    calcDimensions 0 0 = ⟨0, 0⟩ := by decide

/-- C5 (amended): the Resize Planner performs no validation of
non-positive inputs and never fails: when both dimensions are ≤ 0 (so
the longest edge is under the cap) it returns the inputs unchanged. -/
theorem calcDimensions_no_invalid_check (w h : ℤ)
    (hw : w ≤ 0) (hh : h ≤ 0) :
    calcDimensions w h = ⟨w, h⟩ := by
  have hmax : max w h ≤ MAX_EDGE := by
    have : MAX_EDGE = 2000 := rfl
    rw [this]
    exact max_le (by omega) (by omega)
  simp [calcDimensions, hmax]

/-- Witness for the amended C5 at concrete non-positive dimensions. -/
theorem calcDimensions_no_invalid_check_witness :
    calcDimensions 0 (-3) = ⟨0, -3⟩ :=
  calcDimensions_no_invalid_check 0 (-3) (by norm_num) (by norm_num)

/-! ## Admission Controller and Batch Scheduler (src/js/app.js)

The five-slot state, `assignFileToSlot`, `_clearSlot` and
`processAllImages` are embedded as pure functions.  Asynchronous
collaborators (the HEIC codec, the platform image decoder used by
`ImageProcessor.getDimensions`, and `ImageProcessor.process` itself) are
parameters: each admission or batch run is a function of their outcomes.
Object-URL fields (`originalUrl`, `processedUrl`), which mirror `file`
and `processedBlob` one-for-one as DOM resource handles, are omitted;
a processed blob is identified with its byte size. -/

/-- Slot lifecycle states (the string status tags of app.js). -/
inductive Status
  | empty
  | validating
  | valid
  | processing
  | error
  | done
deriving Repr, DecidableEq

/-- Failure kinds, abstracting the human-readable messages thrown in
app.js (duplicate, too large, HEIC conversion, type, decode, too small)
and the processing-failure message recorded by `processAllImages`. -/
inductive Err
  | duplicateFile
  | fileTooLarge
  | conversionFailed
  | unsupportedFormat
  | imageUnreadable
  | tooSmall
  | encodingFailed
deriving Repr, DecidableEq

/-- A candidate file: declared name, raw byte size and MIME type. -/
structure FileDesc where
  name : String
  size : ℕ
  ftype : String
deriving Repr, DecidableEq

/-- One slot record (app.js lines 77-81): `status`, `file` (the working,
possibly converted buffer), `originalFile` (the retained descriptor),
`error`, `processedBlob`. -/
structure Slot where
  status : Status
  file : Option FileDesc
  originalFile : Option FileDesc
  error : Option Err
  processedBlob : Option ℕ
deriving Repr, DecidableEq

/-- A freshly cleared slot (`_clearSlot`, app.js lines 508-519). -/
def emptySlot : Slot :=
  { status := .empty, file := none, originalFile := none,
    error := none, processedBlob := none }

/-- `_clearSlot(index)`: reset the slot at `index` unconditionally. -/
def clearSlotAt (slots : List Slot) (index : ℕ) : List Slot :=
  slots.set index emptySlot

/-- The slot produced by the catch branch of `assignFileToSlot`
(app.js lines 323-333): error status and reason, buffers cleared. -/
def errorSlot (e : Err) : Slot :=
  { status := .error, file := none, originalFile := none,
    error := some e, processedBlob := none }

/-- The slot produced by the success branch of `assignFileToSlot`
(app.js lines 301-321). -/
def validSlot (original working : FileDesc) : Slot :=
  { status := .valid, file := some working, originalFile := some original,
    error := none, processedBlob := none }

/-- Does slot `s` retain a descriptor with the candidate's declared name
and byte size (the comparison of app.js lines 294-295)? -/
def slotMatches (s : Slot) (f : FileDesc) : Bool :=
  match s.originalFile with
  | some d => d.name == f.name && d.size == f.size
  | none => false

/-- The `this.slots.some((s, i) => i !== index && ...)` scan, with `k`
the index of the first slot of the remaining list. -/
def anyDuplicateAux (f : FileDesc) (index : ℕ) : ℕ → List Slot → Bool
  | _, [] => false
  | k, s :: rest =>
    ((k != index) && slotMatches s f) || anyDuplicateAux f index (k + 1) rest

/-- The duplicate check of app.js lines 293-296. -/
def isDuplicate (slots : List Slot) (index : ℕ) (f : FileDesc) : Bool :=
  anyDuplicateAux f index 0 slots

/-- `maxSize = 10 * 1024 * 1024` (app.js line 304). -/
def maxFileSize : ℕ := 10 * 1024 * 1024

/-- `_isHeic(file)` (app.js lines 239-244): `name.toLowerCase()` and
`endsWith` are expressed on the name's code points. -/
def isHeic (f : FileDesc) : Bool :=
  f.ftype == "image/heic" || f.ftype == "image/heif" ||
    ".heic".data.isSuffixOf (f.name.data.map Char.toLower) ||
    ".heif".data.isSuffixOf (f.name.data.map Char.toLower)

/-- Outcomes of the external collaborators consumed during admission:
`convert` is the HEIC codec (`_convertHeic`; `none` models any of its
failure modes), `probe` is `ImageProcessor.getDimensions` (`none` models
a decode failure). -/
structure Env where
  convert : FileDesc → Option FileDesc
  probe : FileDesc → Option (ℕ × ℕ)

/-- `validTypes` (app.js line 341). -/
def validTypes : List String := ["image/jpeg", "image/png", "image/webp"]

/-- `validateFile(file)` (app.js lines 339-358): type check, dimension
probe, minimum 1500px longest edge. -/
def validateFile (env : Env) (f : FileDesc) : Except Err Unit :=
  if !(validTypes.contains f.ftype) then .error .unsupportedFormat
  else
    match env.probe f with
    | none => .error .imageUnreadable
    | some (w, h) =>
      if max w h < 1500 then .error .tooSmall else .ok ()

/-- The try-block of `assignFileToSlot` (app.js lines 291-322): duplicate
check, size check, HEIC conversion, then `validateFile`.  Returns the
working (possibly converted) file on success together with a flag
recording whether the codec collaborator was invoked. -/
def admitSteps (env : Env) (slots : List Slot) (index : ℕ)
    (f : FileDesc) : Except Err FileDesc × Bool :=
  if isDuplicate slots index f then (.error .duplicateFile, false)
  else if maxFileSize < f.size then (.error .fileTooLarge, false)
  else if isHeic f then
    match env.convert f with
    | none => (.error .conversionFailed, true)
    | some wf =>
      match validateFile env wf with
      | .error e => (.error e, true)
      | .ok _ => (.ok wf, true)
  else
    match validateFile env f with
    | .error e => (.error e, false)
    | .ok _ => (.ok f, false)

/-- `assignFileToSlot(index, file)` (app.js lines 285-334): clear the
slot, run the admission steps, and commit either the success or the
error slot state.  The second component records whether the HEIC codec
collaborator was invoked. -/
def assignFileToSlot (env : Env) (slots : List Slot) (index : ℕ)
    (f : FileDesc) : List Slot × Bool :=
  let slots1 := clearSlotAt slots index
  match admitSteps env slots1 index f with
  | (.ok wf, inv) => (slots1.set index (validSlot f wf), inv)
  | (.error e, inv) => (slots1.set index (errorSlot e), inv)

/-- The application state visible to the Batch Scheduler. -/
structure AppState where
  slots : List Slot
  isProcessing : Bool
deriving Repr, DecidableEq

/-- The five empty slots of a fresh session (app.js lines 76-82). -/
def initialState : AppState :=
  { slots := List.replicate 5 emptySlot, isProcessing := false }

/-- `allSlotsValid` (app.js lines 123-125). -/
def allSlotsValid (slots : List Slot) : Bool :=
  slots.all (fun s => s.status == Status.valid)

/-- The sequential loop of `processAllImages` (app.js lines 410-432):
process each slot in order; on success mark it done and store the blob;
on the first failure mark that slot error and return immediately.  The
second component counts how many slots were attempted.  `proc` is the
outcome of `ImageProcessor.process` on the slot's working file. -/
def runSlots (proc : Option FileDesc → Except Err ℕ) :
    List Slot → List Slot × ℕ
  | [] => ([], 0)
  | s :: rest =>
    match proc s.file with
    | .ok b =>
      let r := runSlots proc rest
      ({ s with status := .done, processedBlob := some b } :: r.1, r.2 + 1)
    | .error e =>
      ({ s with status := .error, error := some e } :: rest, 1)

/-- `processAllImages()` (app.js lines 400-442): silently a no-op unless
every slot is valid and no run is in progress; otherwise run the slots
sequentially, aborting on the first failure. -/
def processAllImages (proc : Option FileDesc → Except Err ℕ)
    (st : AppState) : AppState :=
  if !allSlotsValid st.slots || st.isProcessing then st
  else { slots := (runSlots proc st.slots).1, isProcessing := false }

/-- The states reachable from a fresh session through the slot-mutating
operations of app.js: admissions (covering `handleFiles` and
`handleSlotReplace`, which call `assignFileToSlot`), explicit clears,
and batch runs (`resetApp` recreates `initialState`). -/
inductive Reachable : AppState → Prop
  | init : Reachable initialState
  | assign (env : Env) (index : ℕ) (f : FileDesc) {s : AppState} :
      Reachable s →
      Reachable { slots := (assignFileToSlot env s.slots index f).1,
                  isProcessing := s.isProcessing }
  | clear (index : ℕ) {s : AppState} :
      Reachable s →
      Reachable { slots := clearSlotAt s.slots index,
                  isProcessing := s.isProcessing }
  | processAll (proc : Option FileDesc → Except Err ℕ) {s : AppState} :
      Reachable s →
      Reachable (processAllImages proc s)

/-! ## Helper lemmas about the duplicate check -/

theorem slotMatches_iff {s : Slot} {f : FileDesc} :
    slotMatches s f = true ↔
      ∃ d, s.originalFile = some d ∧ d.name = f.name ∧ d.size = f.size := by
  unfold slotMatches
  cases h : s.originalFile with
  | none => simp [h]
  | some d =>
    simp only [h, Bool.and_eq_true, beq_iff_eq, Option.some.injEq]
    constructor
    · rintro ⟨h1, h2⟩; exact ⟨d, rfl, h1, h2⟩
    · rintro ⟨d', hd, h1, h2⟩
      exact ⟨hd ▸ h1, hd ▸ h2⟩

theorem anyDuplicateAux_iff (f : FileDesc) (index : ℕ) :
    ∀ (l : List Slot) (k : ℕ),
      anyDuplicateAux f index k l = true ↔
        ∃ j s', k + j ≠ index ∧ l.get? j = some s' ∧
          slotMatches s' f = true := by
  intro l
  induction l with
  | nil => intro k; simp [anyDuplicateAux]
  | cons s rest ih =>
    intro k
    simp only [anyDuplicateAux, Bool.or_eq_true, Bool.and_eq_true,
      bne_iff_ne]
    constructor
    · rintro (⟨hne, hm⟩ | h)
      · exact ⟨0, s, by omega, rfl, hm⟩
      · obtain ⟨j, s', hne, hget, hm⟩ := (ih (k + 1)).1 h
        exact ⟨j + 1, s', by omega, hget, hm⟩
    · rintro ⟨j, s', hne, hget, hm⟩
      cases j with
      | zero =>
        left
        have hs : s = s' := by simpa using hget
        exact ⟨by omega, hs ▸ hm⟩
      | succ n =>
        right
        exact (ih (k + 1)).2 ⟨n, s', by omega, by simpa using hget, hm⟩

theorem isDuplicate_iff {slots : List Slot} {index : ℕ} {f : FileDesc} :
    isDuplicate slots index f = true ↔
      ∃ j s', j ≠ index ∧ slots.get? j = some s' ∧
        slotMatches s' f = true := by
  rw [isDuplicate, anyDuplicateAux_iff]
  constructor
  · rintro ⟨j, s', h1, h2, h3⟩; exact ⟨j, s', by omega, h2, h3⟩
  · rintro ⟨j, s', h1, h2, h3⟩; exact ⟨j, s', by omega, h2, h3⟩

/-- The duplicate check runs after the target slot has been cleared, so
it sees exactly the other slots of the original state. -/
theorem isDuplicate_clearSlotAt {slots : List Slot} {index : ℕ}
    {f : FileDesc} :
    isDuplicate (clearSlotAt slots index) index f = true ↔
      ∃ j s', j ≠ index ∧ slots.get? j = some s' ∧
        slotMatches s' f = true := by
  rw [isDuplicate_iff]
  constructor
  · rintro ⟨j, s', h1, h2, h3⟩
    refine ⟨j, s', h1, ?_, h3⟩
    rwa [clearSlotAt, List.get?_eq_getElem?,
      List.getElem?_set_ne (Ne.symm h1), ← List.get?_eq_getElem?] at h2
  · rintro ⟨j, s', h1, h2, h3⟩
    refine ⟨j, s', h1, ?_, h3⟩
    rwa [clearSlotAt, List.get?_eq_getElem?,
      List.getElem?_set_ne (Ne.symm h1), ← List.get?_eq_getElem?]

/-! ## Helper lemmas about the admission steps -/

theorem validateFile_error_cases {env : Env} {f : FileDesc} {e : Err}
    (herr : validateFile env f = .error e) :
    e = Err.unsupportedFormat ∨ e = Err.imageUnreadable ∨
      e = Err.tooSmall := by
  unfold validateFile at herr
  split at herr
  · simp only [Except.error.injEq] at herr
    exact Or.inl herr.symm
  · split at herr
    · simp only [Except.error.injEq] at herr
      exact Or.inr (Or.inl herr.symm)
    · split at herr
      · simp only [Except.error.injEq] at herr
        exact Or.inr (Or.inr herr.symm)
      · simp at herr

theorem admitSteps_ok_size {env : Env} {slots : List Slot} {index : ℕ}
    {f wf : FileDesc} {b : Bool}
    (h : admitSteps env slots index f = (.ok wf, b)) :
    f.size ≤ maxFileSize := by
  unfold admitSteps at h
  by_cases h1 : isDuplicate slots index f = true
  · simp [h1] at h
  · by_cases h2 : maxFileSize < f.size
    · simp [h1, h2] at h
    · omega

theorem admitSteps_dup_iff {env : Env} {slots : List Slot} {index : ℕ}
    {f : FileDesc} :
    (admitSteps env slots index f).1 = .error Err.duplicateFile ↔
      isDuplicate slots index f = true := by
  unfold admitSteps
  by_cases h1 : isDuplicate slots index f = true
  · rw [if_pos h1]; simpa using h1
  · rw [if_neg h1]
    simp only [h1, iff_false]
    by_cases h2 : maxFileSize < f.size
    · rw [if_pos h2]; simp
    · rw [if_neg h2]
      by_cases h3 : isHeic f = true
      · rw [if_pos h3]
        cases hc : env.convert f with
        | none => simp
        | some wf =>
          cases hv : validateFile env wf with
          | error e =>
            rcases validateFile_error_cases hv with rfl | rfl | rfl <;>
              simp [hv]
          | ok u => simp [hv]
      · rw [if_neg h3]
        cases hv : validateFile env f with
        | error e =>
          rcases validateFile_error_cases hv with rfl | rfl | rfl <;>
            simp [hv]
        | ok u => simp [hv]

/-- If the candidate is oversized and no slot retains a matching
descriptor, the admission steps stop at the size gate without invoking
the codec collaborator. -/
theorem admitSteps_oversized {env : Env} {slots : List Slot} {index : ℕ}
    {f : FileDesc} (hdup : isDuplicate slots index f = false)
    (hsize : maxFileSize < f.size) :
    admitSteps env slots index f = (.error Err.fileTooLarge, false) := by
  unfold admitSteps
  rw [if_neg (by simp [hdup]), if_pos hsize]

/-! ## Result shape of an admission -/

theorem assign_get?_ok {env : Env} {slots : List Slot} {index : ℕ}
    {f wf : FileDesc} {b : Bool} (hidx : index < slots.length)
    (hadm : admitSteps env (clearSlotAt slots index) index f = (.ok wf, b)) :
    (assignFileToSlot env slots index f).1.get? index =
      some (validSlot f wf) := by
  have hlen : index < (clearSlotAt slots index).length := by
    simpa [clearSlotAt] using hidx
  simp [assignFileToSlot, hadm, List.get?_eq_getElem?,
    List.getElem?_set_eq_of_lt _ hlen]

theorem assign_get?_error {env : Env} {slots : List Slot} {index : ℕ}
    {f : FileDesc} {e : Err} {b : Bool} (hidx : index < slots.length)
    (hadm : admitSteps env (clearSlotAt slots index) index f =
      (.error e, b)) :
    (assignFileToSlot env slots index f).1.get? index =
      some (errorSlot e) := by
  have hlen : index < (clearSlotAt slots index).length := by
    simpa [clearSlotAt] using hidx
  simp [assignFileToSlot, hadm, List.get?_eq_getElem?,
    List.getElem?_set_eq_of_lt _ hlen]

/-! ## State invariant maintained by the admission controller -/

/-- Per-slot well-formedness maintained by app.js: a slot holding a
working buffer is never in the empty status, and any retained
descriptor passed the 10 MiB size gate when it was admitted. -/
def SlotInv (s : Slot) : Prop :=
  (s.file.isSome = true → s.status ≠ Status.empty) ∧
  (∀ d, s.originalFile = some d → d.size ≤ maxFileSize)

/-- State-level invariant: the batch always has exactly five slots and
every slot is well-formed. -/
def StateInv (st : AppState) : Prop :=
  st.slots.length = 5 ∧ ∀ s ∈ st.slots, SlotInv s

theorem slotInv_empty : SlotInv emptySlot := by
  constructor
  · intro h; simp [emptySlot] at h
  · intro d hd; simp [emptySlot] at hd

theorem slotInv_error (e : Err) : SlotInv (errorSlot e) := by
  constructor
  · intro h; simp [errorSlot] at h
  · intro d hd; simp [errorSlot] at hd

theorem slotInv_valid {original working : FileDesc}
    (h : original.size ≤ maxFileSize) :
    SlotInv (validSlot original working) := by
  constructor
  · intro _; simp [validSlot]
  · intro d hd
    simp only [validSlot, Option.some.injEq] at hd
    exact hd ▸ h

theorem stateInv_init : StateInv initialState := by
  constructor
  · rfl
  · intro s hs
    have : s = emptySlot := by
      simpa using (List.eq_of_mem_replicate hs)
    exact this ▸ slotInv_empty

theorem stateInv_clear {st : AppState} (h : StateInv st) (index : ℕ) :
    StateInv { slots := clearSlotAt st.slots index,
               isProcessing := st.isProcessing } := by
  obtain ⟨hlen, hinv⟩ := h
  constructor
  · simpa [clearSlotAt] using hlen
  · intro s hs
    rcases List.mem_or_eq_of_mem_set hs with hs2 | rfl
    · exact hinv s hs2
    · exact slotInv_empty

theorem stateInv_assign {st : AppState} (h : StateInv st) (env : Env)
    (index : ℕ) (f : FileDesc) :
    StateInv { slots := (assignFileToSlot env st.slots index f).1,
               isProcessing := st.isProcessing } := by
  obtain ⟨hlen, hinv⟩ := h
  rcases hadm : admitSteps env (clearSlotAt st.slots index) index f with
    ⟨out, b⟩
  have hmem : ∀ s ∈ (assignFileToSlot env st.slots index f).1,
      SlotInv s := by
    cases out with
    | ok wf =>
      have hres : (assignFileToSlot env st.slots index f).1 =
          (clearSlotAt st.slots index).set index (validSlot f wf) := by
        simp [assignFileToSlot, hadm]
      intro s hs
      rw [hres] at hs
      rcases List.mem_or_eq_of_mem_set hs with hs2 | rfl
      · rcases List.mem_or_eq_of_mem_set hs2 with hs3 | rfl
        · exact hinv s hs3
        · exact slotInv_empty
      · exact slotInv_valid (admitSteps_ok_size hadm)
    | error e =>
      have hres : (assignFileToSlot env st.slots index f).1 =
          (clearSlotAt st.slots index).set index (errorSlot e) := by
        simp [assignFileToSlot, hadm]
      intro s hs
      rw [hres] at hs
      rcases List.mem_or_eq_of_mem_set hs with hs2 | rfl
      · rcases List.mem_or_eq_of_mem_set hs2 with hs3 | rfl
        · exact hinv s hs3
        · exact slotInv_empty
      · exact slotInv_error e
  have hlen2 : (assignFileToSlot env st.slots index f).1.length = 5 := by
    cases out with
    | ok wf =>
      have hres : (assignFileToSlot env st.slots index f).1 =
          (clearSlotAt st.slots index).set index (validSlot f wf) := by
        simp [assignFileToSlot, hadm]
      simp [hres, clearSlotAt, hlen]
    | error e =>
      have hres : (assignFileToSlot env st.slots index f).1 =
          (clearSlotAt st.slots index).set index (errorSlot e) := by
        simp [assignFileToSlot, hadm]
      simp [hres, clearSlotAt, hlen]
  exact ⟨hlen2, hmem⟩

theorem runSlots_length (proc : Option FileDesc → Except Err ℕ) :
    ∀ l : List Slot, (runSlots proc l).1.length = l.length := by
  intro l
  induction l with
  | nil => rfl
  | cons s rest ih =>
    cases hp : proc s.file with
    | ok b => simp [runSlots, hp, ih]
    | error e => simp [runSlots, hp]

theorem runSlots_mem {proc : Option FileDesc → Except Err ℕ} :
    ∀ (l : List Slot), ∀ s' ∈ (runSlots proc l).1,
      ∃ s ∈ l, s'.file = s.file ∧ s'.originalFile = s.originalFile ∧
        (s'.status = Status.done ∨ s'.status = Status.error ∨ s' = s) := by
  intro l
  induction l with
  | nil => intro s' hs'; simp [runSlots] at hs'
  | cons s rest ih =>
    intro s' hs'
    cases hp : proc s.file with
    | ok b =>
      simp only [runSlots, hp] at hs'
      rcases List.mem_cons.1 hs' with rfl | hs2
      · exact ⟨s, List.mem_cons_self s rest, rfl, rfl, Or.inl rfl⟩
      · obtain ⟨t, ht, h1, h2, h3⟩ := ih s' hs2
        exact ⟨t, List.mem_cons_of_mem s ht, h1, h2, h3⟩
    | error e =>
      simp only [runSlots, hp] at hs'
      rcases List.mem_cons.1 hs' with rfl | hs2
      · exact ⟨s, List.mem_cons_self s rest, rfl, rfl,
          Or.inr (Or.inl rfl)⟩
      · exact ⟨s', List.mem_cons_of_mem s hs2, rfl, rfl,
          Or.inr (Or.inr rfl)⟩

theorem stateInv_processAll {st : AppState} (h : StateInv st)
    (proc : Option FileDesc → Except Err ℕ) :
    StateInv (processAllImages proc st) := by
  obtain ⟨hlen, hinv⟩ := h
  unfold processAllImages
  split
  · exact ⟨hlen, hinv⟩
  · constructor
    · simpa [runSlots_length] using hlen
    · intro s' hs'
      obtain ⟨s, hs, h1, h2, h3⟩ := runSlots_mem st.slots s' hs'
      obtain ⟨i1, i2⟩ := hinv s hs
      constructor
      · intro hsome
        rcases h3 with hst | hst | rfl
        · rw [hst]; simp
        · rw [hst]; simp
        · exact i1 hsome
      · intro d hd
        rw [h2] at hd
        exact i2 d hd

/-- Every reachable application state satisfies the invariant. -/
theorem reachable_inv {st : AppState} (h : Reachable st) : StateInv st := by
  induction h with
  | init => exact stateInv_init
  | assign env index f _ ih => exact stateInv_assign ih env index f
  | clear index _ ih => exact stateInv_clear ih index
  | processAll proc _ ih => exact stateInv_processAll ih proc

/-! ## Batch scheduler behaviour -/

/-- The state of a slot after its processing step succeeded. -/
def doneSlot (proc : Option FileDesc → Except Err ℕ) (t : Slot) : Slot :=
  { t with status := Status.done, processedBlob := (proc t.file).toOption }

/-- The state of a slot after its processing step failed with `e`. -/
def failSlot (t : Slot) (e : Err) : Slot :=
  { t with status := Status.error, error := some e }

theorem runSlots_fail (proc : Option FileDesc → Except Err ℕ)
    (pre post : List Slot) (fs : Slot) (e : Err)
    (hok : ∀ t ∈ pre, ∃ b, proc t.file = Except.ok b)
    (hfail : proc fs.file = Except.error e) :
    runSlots proc (pre ++ fs :: post) =
      (pre.map (doneSlot proc) ++ (failSlot fs e :: post),
       pre.length + 1) := by
  induction pre with
  | nil => simp [runSlots, hfail, failSlot]
  | cons t pre ih =>
    obtain ⟨b, hb⟩ := hok t (List.mem_cons_self t pre)
    have ih2 := ih (fun u hu => hok u (List.mem_cons_of_mem t hu))
    simp [runSlots, hb, ih2, doneSlot, Except.toOption]

/-- C3: a batch run over five valid slots with no run in progress
processes slots in index order; on the first failing slot the run aborts
immediately: earlier slots are done with their artifacts stored, the
failing slot is in error status with the reason recorded, later slots
are returned untouched (hence still valid) and never attempted (the
number of processing calls is the failing position plus one); and a call
made while not every slot is valid, or while a run is in progress, is a
silent no-op. -/
theorem batch_abort_on_first_failure :
    (∀ (proc : Option FileDesc → Except Err ℕ) (st : AppState)
        (pre post : List Slot) (fs : Slot) (e : Err),
      st.slots = pre ++ fs :: post →
      pre.length + 1 + post.length = 5 →
      (∀ s ∈ st.slots, s.status = Status.valid) →
      st.isProcessing = false →
      (∀ t ∈ pre, ∃ b, proc t.file = Except.ok b) →
      proc fs.file = Except.error e →
      (processAllImages proc st).slots =
        pre.map (doneSlot proc) ++ (failSlot fs e :: post) ∧
      (runSlots proc st.slots).2 = pre.length + 1 ∧
      (processAllImages proc st).isProcessing = false) ∧
    (∀ proc st, allSlotsValid st.slots = false ∨ st.isProcessing = true →
      processAllImages proc st = st) := by
  constructor
  · intro proc st pre post fs e hslots hlen hvalid hproc hok hfail
    have hvalid' : allSlotsValid st.slots = true := by
      rw [allSlotsValid, List.all_eq_true]
      intro s hs
      simp [hvalid s hs]
    have hguard : ¬((!allSlotsValid st.slots || st.isProcessing) = true) := by
      rw [hvalid', hproc]
      exact Bool.false_ne_true
    have hrun := runSlots_fail proc pre post fs e hok hfail
    refine ⟨?_, ?_, ?_⟩
    · rw [processAllImages, if_neg hguard]
      simp [hslots, hrun]
    · simp [hslots, hrun]
    · rw [processAllImages, if_neg hguard]
  · intro proc st h
    have hguard : (!allSlotsValid st.slots || st.isProcessing) = true := by
      rcases h with h | h
      · simp [h]
      · simp [h]
    rw [processAllImages, if_pos hguard]

/-! ## Concrete fixtures -/

def fileA : FileDesc := { name := "a.jpg", size := 100, ftype := "image/jpeg" }

def fileB : FileDesc := { name := "b.jpg", size := 100, ftype := "image/jpeg" }

def fileC : FileDesc := { name := "c.jpg", size := 100, ftype := "image/jpeg" }

def fileD : FileDesc := { name := "d.jpg", size := 100, ftype := "image/jpeg" }

def fileE : FileDesc := { name := "e.jpg", size := 100, ftype := "image/jpeg" }

/-- Collaborator outcomes: the codec always fails (it is never needed in
the fixtures) and every probe reports 2000x1500 pixels. -/
def envPlain : Env :=
  { convert := fun _ => none, probe := fun _ => some (2000, 1500) }

/-- A batch of five admitted slots. -/
def validBatch : AppState :=
  { slots := [validSlot fileA fileA, validSlot fileB fileB,
              validSlot fileC fileC, validSlot fileD fileD,
              validSlot fileE fileE],
    isProcessing := false }

/-- A processing outcome that fails exactly on fileC. -/
def procFailC : Option FileDesc → Except Err ℕ := fun of =>
  match of with
  | some d => if d.name == "c.jpg" then .error .encodingFailed else .ok 500
  | none => .error .imageUnreadable

/-- Witness for C3: five valid slots, failure at slot 2 (0-indexed). -/
theorem batch_abort_on_first_failure_witness :
    (processAllImages procFailC validBatch).slots =
      [validSlot fileA fileA, validSlot fileB fileB].map
          (doneSlot procFailC) ++
        (failSlot (validSlot fileC fileC) Err.encodingFailed ::
          [validSlot fileD fileD, validSlot fileE fileE]) ∧
    (runSlots procFailC validBatch.slots).2 = 3 ∧
    (processAllImages procFailC validBatch).isProcessing = false :=
  batch_abort_on_first_failure.1 procFailC validBatch
    [validSlot fileA fileA, validSlot fileB fileB]
    [validSlot fileD fileD, validSlot fileE fileE]
    (validSlot fileC fileC) Err.encodingFailed rfl rfl
    (by decide) rfl
    (fun t ht => by
      rcases List.mem_cons.1 ht with rfl | ht2
      · exact ⟨500, rfl⟩
      · rcases List.mem_cons.1 ht2 with rfl | ht3
        · exact ⟨500, rfl⟩
        · exact absurd ht3 (List.not_mem_nil t))
    rfl

/-! ## Size gate precedes conversion -/

/-- An 11 MiB HEIC candidate. -/
def oversizedHeic : FileDesc :=
  { name := "big.heic", size := 11 * 1024 * 1024, ftype := "image/heic" }

/-- C6: in any reachable state, admitting a candidate whose raw byte
size exceeds 10 MiB fails with FileTooLarge, and the codec collaborator
is never invoked (the invocation flag of the admission is false). -/
theorem oversized_rejected_before_conversion {st : AppState}
    (hreach : Reachable st) (env : Env) (index : ℕ) (f : FileDesc)
    (hidx : index < st.slots.length) (hsize : maxFileSize < f.size) :
    (assignFileToSlot env st.slots index f).1.get? index =
        some (errorSlot Err.fileTooLarge) ∧
    (assignFileToSlot env st.slots index f).2 = false := by
  obtain ⟨hlen, hinv⟩ := reachable_inv hreach
  have hdup : isDuplicate (clearSlotAt st.slots index) index f = false := by
    cases hbool : isDuplicate (clearSlotAt st.slots index) index f with
    | false => rfl
    | true =>
      exfalso
      obtain ⟨j, s', hne, hget, hm⟩ := isDuplicate_clearSlotAt.1 hbool
      obtain ⟨d, hd, hdn, hds⟩ := slotMatches_iff.1 hm
      have hmem : s' ∈ st.slots := List.get?_mem hget
      have := (hinv s' hmem).2 d hd
      omega
  have hadm : admitSteps env (clearSlotAt st.slots index) index f =
      (.error Err.fileTooLarge, false) := admitSteps_oversized hdup hsize
  refine ⟨assign_get?_error hidx hadm, ?_⟩
  simp [assignFileToSlot, hadm]

/-- Witness for C6: an 11 MiB HEIC file into a fresh batch. -/
theorem oversized_rejected_before_conversion_witness :
    (assignFileToSlot envPlain initialState.slots 0 oversizedHeic).1.get? 0 =
        some (errorSlot Err.fileTooLarge) ∧
    (assignFileToSlot envPlain initialState.slots 0 oversizedHeic).2 =
      false :=
  oversized_rejected_before_conversion Reachable.init envPlain 0
    oversizedHeic (by decide) (by decide)

/-! ## Duplicate detection -/

/-- C7: admission into slot `index` fails with DuplicateFile exactly
when some other slot currently retains a descriptor with both the
candidate's declared name and its byte size (so a candidate matching
another slot's name but differing in size passes the duplicate check). -/
theorem duplicate_exactly_when (env : Env) (slots : List Slot)
    (index : ℕ) (f : FileDesc) (hidx : index < slots.length) :
    ((assignFileToSlot env slots index f).1.get? index =
        some (errorSlot Err.duplicateFile)) ↔
      ∃ j s', j ≠ index ∧ slots.get? j = some s' ∧
        slotMatches s' f = true := by
  rcases hadm : admitSteps env (clearSlotAt slots index) index f with ⟨out, b⟩
  have hdup := @admitSteps_dup_iff env (clearSlotAt slots index) index f
  rw [hadm] at hdup
  cases out with
  | ok wf =>
    rw [assign_get?_ok hidx hadm]
    simp only [Option.some.injEq]
    constructor
    · intro hvs
      have := congrArg Slot.status hvs
      simp [validSlot, errorSlot] at this
    · intro hex
      exfalso
      have htrue : isDuplicate (clearSlotAt slots index) index f = true :=
        isDuplicate_clearSlotAt.2 hex
      have := hdup.2 htrue
      simp at this
  | error e =>
    rw [assign_get?_error hidx hadm]
    simp only [Option.some.injEq]
    have herr : errorSlot e = errorSlot Err.duplicateFile ↔
        e = Err.duplicateFile := by
      constructor
      · intro hh
        have := congrArg Slot.error hh
        simpa [errorSlot] using this
      · intro hh; rw [hh]
    rw [herr]
    constructor
    · intro he
      subst he
      exact isDuplicate_clearSlotAt.1 (hdup.1 rfl)
    · intro hex
      have htrue : isDuplicate (clearSlotAt slots index) index f = true :=
        isDuplicate_clearSlotAt.2 hex
      have he := hdup.2 htrue
      simpa using he

/-- The batch after admitting fileA into slot 0 of a fresh session. -/
def slotsWithA : List Slot :=
  (assignFileToSlot envPlain initialState.slots 0 fileA).1

/-- Witness for C7: re-admitting fileA into slot 1 while slot 0 retains
its descriptor. -/
theorem duplicate_exactly_when_witness :
    ((assignFileToSlot envPlain slotsWithA 1 fileA).1.get? 1 =
        some (errorSlot Err.duplicateFile)) ↔
      ∃ j s', j ≠ 1 ∧ slotsWithA.get? j = some s' ∧
        slotMatches s' fileA = true :=
  duplicate_exactly_when envPlain slotsWithA 1 fileA (by decide)

/-! ## Slot invariant claims -/

/-- The state reached from a fresh session by one admission attempt that
fails the size gate. -/
def failedAdmitState : AppState :=
  { slots := (assignFileToSlot envPlain initialState.slots 0
      oversizedHeic).1,
    isProcessing := false }

/-- C9 counterexample: after an admission attempt that ends in the error
status, the slot is reachable with status error while holding no source
buffer, so the claimed "exactly one of {sourceBuffer present, status =
empty}" (buffer present iff status not empty) fails. -/
theorem buffer_iff_nonempty_cex :
    Reachable failedAdmitState ∧
    failedAdmitState.slots.get? 0 = some (errorSlot Err.fileTooLarge) ∧
    ¬(((errorSlot Err.fileTooLarge).file.isSome = true) ↔
      (errorSlot Err.fileTooLarge).status ≠ Status.empty) := by
  refine ⟨Reachable.assign envPlain 0 oversizedHeic Reachable.init,
    by decide, by decide⟩

/-- C9 (amended): in every reachable state, a slot that holds a source
buffer has a non-empty status; the converse direction of the claimed
invariant fails after a failed admission (see the counterexample), where
the slot has error status and no buffer. -/
theorem buffer_implies_nonempty {st : AppState} (h : Reachable st) :
    ∀ s ∈ st.slots, s.file.isSome = true → s.status ≠ Status.empty :=
  fun s hs => ((reachable_inv h).2 s hs).1

/-- Witness for the amended C9 after a successful admission. -/
theorem buffer_implies_nonempty_witness :
    (validSlot fileA fileA).status ≠ Status.empty :=
  buffer_implies_nonempty
    (Reachable.assign envPlain 0 fileA Reachable.init)
    (validSlot fileA fileA) (by decide) (by decide)

/-! ## Error slots and duplicate detection (C10) -/

def slotsAB : List Slot := (assignFileToSlot envPlain slotsWithA 1 fileB).1

def slotsABC : List Slot := (assignFileToSlot envPlain slotsAB 2 fileC).1

def slotsABCD : List Slot :=
  (assignFileToSlot envPlain slotsABC 3 fileD).1

def slotsABCDE : List Slot :=
  (assignFileToSlot envPlain slotsABCD 4 fileE).1

/-- Five slots admitted through the admission controller. -/
def fullValidState : AppState :=
  { slots := slotsABCDE, isProcessing := false }

/-- A processing outcome that fails on every slot. -/
def procFailAll : Option FileDesc → Except Err ℕ :=
  fun _ => .error .encodingFailed

/-- The batch after a run that failed at slot 0. -/
def abortedState : AppState := processAllImages procFailAll fullValidState

/-- C10 counterexample: slot 0's admission of fileA succeeded and its
processing then failed, leaving a reachable error-status slot that still
retains fileA's descriptor; admitting an identical file into slot 1 then
fails with DuplicateFile, so a slot in the error state does participate
in duplicate detection. -/
theorem error_slots_dedup_cex :
    Reachable abortedState ∧
    (abortedState.slots.get? 0).map Slot.status = some Status.error ∧
    (abortedState.slots.get? 0).bind Slot.originalFile = some fileA ∧
    (assignFileToSlot envPlain abortedState.slots 1 fileA).1.get? 1 =
      some (errorSlot Err.duplicateFile) := by
  refine ⟨?_, by decide, by decide, by decide⟩
  exact Reachable.processAll procFailAll
    (Reachable.assign envPlain 4 fileE
      (Reachable.assign envPlain 3 fileD
        (Reachable.assign envPlain 2 fileC
          (Reachable.assign envPlain 1 fileB
            (Reachable.assign envPlain 0 fileA Reachable.init)))))

/-- C10 (amended): only error slots produced by a failed admission are
excluded from duplicate detection: the catch branch of
`assignFileToSlot` clears the retained descriptor, so such a slot never
matches any candidate; by contrast a slot whose admission succeeded but
whose later processing failed retains its descriptor and still
participates (see the counterexample). -/
theorem admission_error_never_matches (env : Env) (slots : List Slot)
    (index : ℕ) (f g : FileDesc) (s' : Slot)
    (hidx : index < slots.length)
    (hget : (assignFileToSlot env slots index f).1.get? index = some s')
    (herr : s'.status = Status.error) :
    s'.originalFile = none ∧ slotMatches s' g = false := by
  rcases hadm : admitSteps env (clearSlotAt slots index) index f with ⟨out, b⟩
  cases out with
  | ok wf =>
    rw [assign_get?_ok hidx hadm] at hget
    have hs : s' = validSlot f wf := by simpa using hget.symm
    rw [hs] at herr
    simp [validSlot] at herr
  | error e =>
    rw [assign_get?_error hidx hadm] at hget
    have hs : s' = errorSlot e := by simpa using hget.symm
    subst hs
    exact ⟨rfl, rfl⟩

/-- Witness for the amended C10: a failed (oversized) admission leaves a
slot that matches no candidate. -/
theorem admission_error_never_matches_witness :
    (errorSlot Err.fileTooLarge).originalFile = none ∧
    slotMatches (errorSlot Err.fileTooLarge) fileA = false :=
  admission_error_never_matches envPlain initialState.slots 0
    oversizedHeic fileA (errorSlot Err.fileTooLarge) (by decide)
    (by decide) (by decide)

end ImgApp
